import Mathlib

/-!
# Verification of the `enderchest-gui` configuration store and stack reporter

Shallow embedding of `src/common/config.py` and `src/common/stack.py`.

Paths (`pathlib.Path`) are modelled as plain strings, assumed to be in the
normalized form `str(Path(...))` produces.  The external collaborators
(`EnderChest.from_cfg`, `enderchest.filesystem.ender_chest_config`,
`gsb.manifest.Manifest.of`, `os.getenv`, `Path.expanduser`,
`enderchest_gui._version.get_versions` and `datetime.now`) are supplied by an
explicit `Env` record, so every theorem quantifies over their behaviour unless
it pins a concrete environment.  Fallible Python calls (which raise `OSError`
or `ValueError`) are modelled with `Except RegError`.
-/

/-- The two exception kinds `register_enderchest` / `register_save` may raise
(`ValueError` for an unparsable descriptor, `OSError` for a missing or
unreadable file); see the docstrings in `src/common/config.py`. -/
inductive RegError where
  | valueError
  | osError
  deriving DecidableEq, Repr

/-- Opaque stand-in for a validated `enderchest.EnderChest` descriptor object.
The store never inspects it; it only stores and lists it. -/
structure EnderChest where
  payload : String
  deriving DecidableEq, Repr

/-- Stand-in for a `gsb.manifest.Manifest`: the only attribute the store reads
is `root`, the canonical save root. -/
structure GSB_Manifest where
  root : String
  deriving DecidableEq, Repr

/-- The external world consumed by `config.py`:

* `expand` models `Path.expanduser`;
* `enderChestConfig` models `enderchest.filesystem.ender_chest_config`
  (mapping a minecraft root to the chest config-file locator);
* `fromCfg` models `EnderChest.from_cfg`, raising `ValueError`/`OSError` on
  invalid input;
* `gsbOf` models `gsb.manifest.Manifest.of`, taking a directory and returning
  the manifest for it (whose `root` is the canonical save root);
* `minecraftRoot` models `os.getenv("MINECRAFT_ROOT")` (`none` = unset);
* `version` models `get_versions()["version"]`;
* `now` models `dt.datetime.now().isoformat(sep=" ")`. -/
structure Env where
  expand : String → String
  enderChestConfig : String → String
  fromCfg : String → Except RegError EnderChest
  gsbOf : String → Except RegError GSB_Manifest
  minecraftRoot : Option String
  version : String
  now : String

/-- Split a character list at every occurrence of the separator `sep`. -/
def splitOnChar (sep : Char) : List Char → List (List Char)
  | [] => [[]]
  | c :: rest =>
    if c = sep then [] :: splitOnChar sep rest
    else match splitOnChar sep rest with
      | line :: more => (c :: line) :: more
      | [] => [[c]]

/-- Re-join path components with `/` separators. -/
def joinSlash : List (List Char) → String
  | [] => ""
  | [part] => ⟨part⟩
  | part :: rest => ⟨part⟩ ++ "/" ++ joinSlash rest

/-- `PurePosixPath.parent` on a normalized path string: drop the last
component; the parent of `/` is `/` and the parent of a single relative
component is `.` (as in `pathlib`). -/
def parentPath (p : String) : String :=
  let isAbs : Bool := match p.data with
    | '/' :: _ => true
    | _ => false
  let parts := (splitOnChar '/' p.data).filter (fun part => part ≠ [])
  match parts.dropLast with
  | [] => if isAbs then "/" else "."
  | pp => (if isAbs then "/" else "") ++ joinSlash pp

/-- Python `dict` upsert `d[k] = v` on an insertion-ordered association list:
if the key is present its value is updated in place (key object and position
are kept); otherwise the pair is appended at the end. -/
def dictInsert (k : String) (v : α) (d : List (String × α)) : List (String × α) :=
  if d.any (fun kv => kv.fst == k) then
    d.map (fun kv => if kv.fst = k then (kv.fst, v) else kv)
  else d ++ [(k, v)]

/-- The keys of an association list, in insertion order. -/
def dictKeys (d : List (String × α)) : List String :=
  d.map Prod.fst

/-- `Config`: the application settings store (`src/common/config.py`,
class `Config`).  The two private attributes are insertion-ordered mappings
(Python `dict`s) from path to descriptor. -/
structure Config where
  _ender_chests : List (String × EnderChest)
  _saves : List (String × GSB_Manifest)
  deriving DecidableEq, Repr

namespace Config

/-- The `ender_chests` property: the registered chest descriptors in mapping
iteration (= insertion) order. -/
def ender_chests (c : Config) : List EnderChest :=
  c._ender_chests.map Prod.snd

/-- The `saves` property: the registered manifests in insertion order. -/
def saves (c : Config) : List GSB_Manifest :=
  c._saves.map Prod.snd

/-- The registered chest paths (the keys of `_ender_chests`). -/
def chestKeys (c : Config) : List String :=
  dictKeys c._ender_chests

/-- The registered save roots (the keys of `_saves`). -/
def saveKeys (c : Config) : List String :=
  dictKeys c._saves

/-- `Config.register_enderchest`: load the descriptor via
`EnderChest.from_cfg(ender_chest_config(minecraft_root.expanduser()))`; on
success store it keyed by the *original* (unexpanded) `minecraft_root` and
return the updated store; on failure propagate the error (nothing stored). -/
def register_enderchest (env : Env) (c : Config) (minecraft_root : String) :
    Except RegError Config :=
  match env.fromCfg (env.enderChestConfig (env.expand minecraft_root)) with
  | .error e => .error e
  | .ok chest => .ok { c with _ender_chests := dictInsert minecraft_root chest c._ender_chests }

/-- `Config.register_save`: resolve
`GSB_Manifest.of(manifest_path.expanduser().parent)` and store the manifest
keyed by `save.root` (the canonical root, not the input path). -/
def register_save (env : Env) (c : Config) (manifest_path : String) :
    Except RegError Config :=
  match env.gsbOf (parentPath (env.expand manifest_path)) with
  | .error e => .error e
  | .ok save => .ok { c with _saves := dictInsert save.root save c._saves }

/-- `Config.__init__`: start with empty mappings; if `$MINECRAFT_ROOT` is set
(non-empty — the walrus `if minecraft_root := os.getenv(...)` treats `""` as
falsy), attempt one automatic chest registration, logging and swallowing any
`ValueError`/`OSError`. -/
def init (env : Env) : Config :=
  let base : Config := ⟨[], []⟩
  match env.minecraftRoot with
  | none => base
  | some minecraft_root =>
    if minecraft_root = "" then base
    else
      match base.register_enderchest env minecraft_root with
      | .ok c => c
      | .error _ => base

end Config

/-! ## `json.dumps` string escaping

`_to_toml` escapes every string value with `json.dumps` (default settings, so
`ensure_ascii=True`): `"` and `\` get a backslash escape, the named control
characters use their short escapes, every other character outside printable
ASCII `0x20..0x7e` is emitted as `\uXXXX` (lowercase hex, UTF-16 surrogate
pairs for code points above `0xffff`). -/

/-- One lowercase hexadecimal digit, as `"{0:04x}".format` renders it. -/
def hexDigitChar : Nat → Char
  | 0 => '0' | 1 => '1' | 2 => '2' | 3 => '3' | 4 => '4'
  | 5 => '5' | 6 => '6' | 7 => '7' | 8 => '8' | 9 => '9'
  | 10 => 'a' | 11 => 'b' | 12 => 'c' | 13 => 'd' | 14 => 'e'
  | _ => 'f'

/-- Four lowercase hex digits of `n` (for `n < 0x10000`). -/
def hex4 (n : Nat) : List Char :=
  [hexDigitChar (n / 4096 % 16), hexDigitChar (n / 256 % 16),
   hexDigitChar (n / 16 % 16), hexDigitChar (n % 16)]

/-- How `json.dumps` (with `ensure_ascii=True`, the default) renders one
character of a string value. -/
def escapeChar (c : Char) : List Char :=
  if c = '"' then ['\\', '"']
  else if c = '\\' then ['\\', '\\']
  else if c = '\n' then ['\\', 'n']
  else if c = '\r' then ['\\', 'r']
  else if c = '\t' then ['\\', 't']
  else if c = '\x08' then ['\\', 'b']
  else if c = '\x0c' then ['\\', 'f']
  else if 0x20 ≤ c.toNat ∧ c.toNat ≤ 0x7e then [c]
  else if c.toNat < 0x10000 then '\\' :: 'u' :: hex4 c.toNat
  else
    ('\\' :: 'u' :: hex4 (0xd800 + (c.toNat - 0x10000) / 1024)) ++
      ('\\' :: 'u' :: hex4 (0xdc00 + (c.toNat - 0x10000) % 1024))

/-- `json.dumps` applied to a string: the escaped body wrapped in quotes. -/
def jsonDumps (s : String) : String :=
  ⟨'"' :: (s.data.map escapeChar).flatten ++ ['"']⟩

/-! ## `sorted(set(...))` -/

/-- Lexicographic strict order on character lists, comparing code points —
Python's `<` on `str`. -/
def charListLt : List Char → List Char → Bool
  | [], [] => false
  | [], _ :: _ => true
  | _ :: _, [] => false
  | a :: as, b :: bs =>
    if a < b then true
    else if b < a then false
    else charListLt as bs

/-- Python's `<` on strings: lexicographic by code point. -/
def strLt (x y : String) : Bool :=
  charListLt x.data y.data

/-- Insert a string into a strictly increasing list, keeping it strictly
increasing (duplicates are dropped). -/
def insertSorted (x : String) : List String → List String
  | [] => [x]
  | y :: ys =>
    if strLt x y then x :: y :: ys
    else if x = y then y :: ys
    else y :: insertSorted x ys

/-- Python `sorted(set(l))` for a list of strings: the distinct elements in
increasing lexicographic (code point) order. -/
def sortedSet (l : List String) : List String :=
  l.foldr insertSorted []

/-! ## `_to_toml` and `Config.write` -/

/-- A value of the `_ConfigDict` type alias
(`dict[str, str | tuple[str, ...]]`). -/
inductive ConfigValue where
  | str (s : String)
  | list (l : List String)
  deriving DecidableEq, Repr

/-- One `key = value` entry of `_to_toml`'s output: a string value renders as
its `json.dumps` escape, a list renders as a bracketed block with each element
of `sorted(set(value))` indented four spaces and followed by a trailing comma
on its own line, the closing bracket on its own line. -/
def renderEntry (key : String) (value : ConfigValue) : String :=
  key ++ " = " ++
    match value with
    | .str s => jsonDumps s ++ "\n"
    | .list value =>
      "[" ++ String.join ((sortedSet value).map
        (fun entry => "\n    " ++ jsonDumps entry ++ ",")) ++ "\n]\n"

/-- `_to_toml` (`src/common/config.py`): concatenate the rendered entries in
dict order. -/
def _to_toml (config_dict : List (String × ConfigValue)) : String :=
  String.join (config_dict.map (fun kv => renderEntry kv.fst kv.snd))

namespace Config

/-- The `as_dict` that `Config.write` builds: generator version, timestamp,
then the chest paths and the save roots (`str` of the mapping keys, in
insertion order; `_to_toml` sorts and de-duplicates them at render time). -/
def writeDict (env : Env) (c : Config) : List (String × ConfigValue) :=
  [("generated_by_enderchest_gui", .str env.version),
   ("last_modified", .str env.now),
   ("ender_chests", .list (c._ender_chests.map Prod.fst)),
   ("saves", .list (c._saves.map Prod.fst))]

/-- `Config.write` (sans the optional file output, which only copies the
returned string to disk): the TOML rendering of `writeDict`. -/
def write (env : Env) (c : Config) : String :=
  _to_toml (c.writeDict env)

end Config

/-! ## `Config.from_config` -/

/-- A value of a parsed TOML document as `tomllib.loads` returns it (only the
shapes `config.py` ever stores: strings and arrays of strings). -/
inductive TomlValue where
  | str (s : String)
  | arr (l : List String)
  deriving DecidableEq, Repr

/-- A parsed TOML document: a mapping from key to value. -/
abbrev TomlDoc := List (String × TomlValue)

/-- The unhandled exceptions of `Config.from_config`: `OSError` from
`config_file.read_text()`, `tomllib.TOMLDecodeError` from `tomllib.loads`,
and `KeyError` from the `as_dict[...]` lookups. -/
inductive LoadError where
  | ioError
  | tomlDecodeError
  | keyError (k : String)
  deriving DecidableEq, Repr

/-- `as_dict[k]`: Python dict lookup (raises `KeyError`, here `none`, when
absent). -/
def lookupToml (doc : TomlDoc) (k : String) : Option TomlValue :=
  (doc.find? (fun kv => kv.fst == k)).map Prod.snd

/-- Iterating a TOML value with `for x in v`: an array yields its elements; a
string yields its characters as one-character strings (Python iterates
strings character-wise — `from_config` never checks the value's type). -/
def iterToml : TomlValue → List String
  | .str s => s.data.map (fun c => ⟨[c]⟩)
  | .arr l => l

/-- The body of the chest-replay loop in `from_config`: attempt the
registration, keep the previous store on `ValueError`/`OSError` (the error is
logged and skipped). -/
def tryRegisterChest (env : Env) (c : Config) (minecraft_root : String) : Config :=
  match c.register_enderchest env minecraft_root with
  | .ok c2 => c2
  | .error _ => c

/-- The body of the save-replay loop in `from_config` (same partial-failure
handling as `tryRegisterChest`). -/
def tryRegisterSave (env : Env) (c : Config) (manifest_path : String) : Config :=
  match c.register_save env manifest_path with
  | .ok c2 => c2
  | .error _ => c

/-- `Config.from_config`.  `source` is the outcome of
`tomllib.loads(config_file.read_text())`: an `OSError` from the read or a
`TOMLDecodeError` from the parse propagates uncaught (there is no `try`
around those calls); on a parsed document, a fresh `Config()` is built, the
`"ender_chests"` entries are replayed through `register_enderchest` and then
the `"saves"` entries through `register_save`, each loop skipping (only)
per-entry failures; a missing `"ender_chests"` or `"saves"` key raises
`KeyError` at the corresponding loop. -/
def Config.from_config (env : Env) (source : Except LoadError TomlDoc) :
    Except LoadError Config :=
  match source with
  | .error e => .error e
  | .ok as_dict =>
    let config := Config.init env
    match lookupToml as_dict "ender_chests" with
    | none => .error (.keyError "ender_chests")
    | some chestsVal =>
      let config := (iterToml chestsVal).foldl (tryRegisterChest env) config
      match lookupToml as_dict "saves" with
      | none => .error (.keyError "saves")
      | some savesVal =>
        .ok ((iterToml savesVal).foldl (tryRegisterSave env) config)

/-- The TOML document that `tomllib.loads` recovers from `Config.write`'s
output: the same four keys, with each array exactly as `_to_toml` rendered
it — sorted and de-duplicated.  (`tomllib` itself is outside this repository;
the spec's round-trip property presumes the hand-rolled rendering parses
back to the values it printed.) -/
def Config.writeDoc (env : Env) (c : Config) : TomlDoc :=
  [("generated_by_enderchest_gui", .str env.version),
   ("last_modified", .str env.now),
   ("ender_chests", .arr (sortedSet (c._ender_chests.map Prod.fst))),
   ("saves", .arr (sortedSet (c._saves.map Prod.fst)))]

/-! ## `stack.py`: the rsync version probe

`_get_rsync_version` runs `rsync --version`, takes the first line of stdout,
matches it against the regular expression
`^rsync[\s]+version ([0-9]+).([0-9]+).([0-9]+)` (note the unescaped dots:
`.` matches any character except a newline), rejects versions below 3.2, and
otherwise returns `head[len("rsync"):].strip()`.  A missing binary
(`FileNotFoundError`) or empty stdout (`IndexError` on `splitlines()[0]`)
yields the empty string.  Stderr output is only logged. -/

/-- Python's `\s` character class (the ASCII part, which is all the probe's
inputs use). -/
def isPyWs (c : Char) : Bool :=
  c == ' ' || c == '\t' || c == '\n' || c == '\r' || c == '\x0b' || c == '\x0c'

/-- `str.splitlines` restricted to `\n` line endings (the only terminator
appearing in the modelled output): split at `\n` and drop a final empty
piece, so `"".splitlines() = []` and `"a\n".splitlines() = ["a"]`. -/
def splitlines (s : String) : List String :=
  let parts := splitOnChar '\n' s.data
  (if parts.getLast? = some [] then parts.dropLast else parts).map
    (fun l => ⟨l⟩)

/-- `str.strip()`: remove leading and trailing whitespace. -/
def pyStrip (s : String) : String :=
  ⟨((s.data.dropWhile isPyWs).reverse.dropWhile isPyWs).reverse⟩

/-- `int` of a digit string. -/
def natOfDigits (l : List Char) : Nat :=
  l.foldl (fun n c => n * 10 + (c.toNat - 48)) 0

/-- Match a literal at the front of `s`, returning the rest. -/
def dropLit : List Char → List Char → Option (List Char)
  | [], s => some s
  | l :: ls, c :: cs => if c = l then dropLit ls cs else none
  | _ :: _, [] => none

/-- Backtracking matcher for `([0-9]+).` (a greedy digit group followed by
any character but a newline): try digit-run lengths from `i` down to `1`,
handing the group and the rest after the `.` to the continuation, and return
the first success — exactly the order in which Python's `re` explores the
alternatives. -/
def tryRunLens (s : List Char) (cont : List Char → List Char → Option α) :
    Nat → Option α
  | 0 => none
  | i + 1 =>
    match s.drop (i + 1) with
    | dot :: rest =>
      if dot ≠ '\n' then
        match cont (s.take (i + 1)) rest with
        | some r => some r
        | none => tryRunLens s cont i
      else tryRunLens s cont i
    | [] => tryRunLens s cont i

/-- `([0-9]+).` against the front of `s` (the digit run is maximal first,
then backtracks). -/
def matchGroupDot (s : List Char) (cont : List Char → List Char → Option α) :
    Option α :=
  tryRunLens s cont (s.takeWhile Char.isDigit).length

/-- `re.match(r"^rsync[\s]+version ([0-9]+).([0-9]+).([0-9]+)", head)`,
returning `int(major), int(minor)` on success (the patch group is matched
but unused). -/
def rsyncMatch (head : String) : Option (Nat × Nat) :=
  match dropLit "rsync".data head.data with
  | none => none
  | some s1 =>
    if (s1.takeWhile isPyWs).length = 0 then none
    else
      match dropLit "version ".data (s1.dropWhile isPyWs) with
      | none => none
      | some s2 =>
        matchGroupDot s2 fun d1 r1 =>
          matchGroupDot r1 fun d2 r2 =>
            if (r2.takeWhile Char.isDigit).length = 0 then none
            else some (natOfDigits d1, natOfDigits d2)

/-- `_get_rsync_version` (`src/common/stack.py`), as a function of whether
the `rsync` binary exists and of the text it writes to stdout.  (Stderr is
logged but never affects the result; no timeout is modelled.) -/
def _get_rsync_version (rsyncFound : Bool) (stdoutText : String) : String :=
  if rsyncFound then
    match splitlines stdoutText with
    | [] => ""
    | head :: _ =>
      match rsyncMatch head with
      | some (major, minor) =>
        if major < 3 ∨ (major = 3 ∧ minor < 2) then ""
        else pyStrip ⟨head.data.drop 5⟩
      | none => ""
  else ""

/-! ## A standard JSON string unescaper

`jsonUnescape` is the spec side of claim C8: a standard JSON-style string
unescaper (RFC 8259 string syntax), written from the spec's words, to be run
against `jsonDumps`'s output.  It accepts a complete quoted string literal
and returns the decoded string, or `none` on malformed input (including
unpaired surrogate escapes and raw control characters). -/

/-- The numeric value of one hexadecimal digit (either case). -/
def parseHexDigit (c : Char) : Option Nat :=
  if '0' ≤ c ∧ c ≤ '9' then some (c.toNat - 48)
  else if 'a' ≤ c ∧ c ≤ 'f' then some (c.toNat - 87)
  else if 'A' ≤ c ∧ c ≤ 'F' then some (c.toNat - 55)
  else none

/-- The value of a four-hex-digit escape body. -/
def hexQuad (a b c d : Char) : Option Nat :=
  match parseHexDigit a, parseHexDigit b, parseHexDigit c, parseHexDigit d with
  | some x, some y, some z, some w => some (((x * 16 + y) * 16 + z) * 16 + w)
  | _, _, _, _ => none

/-- Combine a high surrogate `n` with the value of the following `\uXXXX`
escape, which must be a low surrogate. -/
def decodeU2 (n : Nat) (o : Option Nat) (l : List Char) : Option (Char × List Char) :=
  match o with
  | none => none
  | some m =>
    if 0xdc00 ≤ m ∧ m < 0xe000 then
      some (Char.ofNat (0x10000 + (n - 0xd800) * 1024 + (m - 0xdc00)), l)
    else none

/-- Decode the value of a `\uXXXX` escape: a plain BMP scalar stands alone; a
high surrogate must be followed by a low-surrogate escape (see `decodeU2`);
a lone low surrogate is malformed. -/
def decodeU (o : Option Nat) (l : List Char) : Option (Char × List Char) :=
  match o with
  | none => none
  | some n =>
    if n < 0xd800 then some (Char.ofNat n, l)
    else if n < 0xdc00 then
      match l with
      | '\\' :: 'u' :: a :: b :: c :: d :: rest2 => decodeU2 n (hexQuad a b c d) rest2
      | _ => none
    else if n < 0xe000 then none
    else some (Char.ofNat n, l)

/-- Decode one escape sequence (everything after a backslash): the named
escapes, or `\uXXXX` (handed to `decodeU`). -/
def decodeEsc : List Char → Option (Char × List Char)
  | '"' :: rest => some ('"', rest)
  | '\\' :: rest => some ('\\', rest)
  | '/' :: rest => some ('/', rest)
  | 'n' :: rest => some ('\n', rest)
  | 'r' :: rest => some ('\r', rest)
  | 't' :: rest => some ('\t', rest)
  | 'b' :: rest => some ('\x08', rest)
  | 'f' :: rest => some ('\x0c', rest)
  | 'u' :: a :: b :: c :: d :: rest => decodeU (hexQuad a b c d) rest
  | _ => none

/-- Decode one character of a JSON string literal body: a raw control
character or a stray closing quote is not a character; a backslash starts an
escape; anything else stands for itself. -/
def decodeChunk : List Char → Option (Char × List Char)
  | [] => none
  | c :: rest =>
    if c = '"' then none
    else if c = '\\' then decodeEsc rest
    else if c.toNat < 0x20 then none
    else some (c, rest)

/-- Decode the remainder of a JSON string literal (everything after the
opening quote) into its characters: a closing quote must end the input; every
other chunk is decoded by `decodeChunk`.  The fuel bounds the number of
decoded characters; since every chunk consumes at least one input character,
`unescapeBody` hands the input's length as fuel. -/
def unescapeGo : Nat → List Char → Option (List Char)
  | _, [] => none
  | 0, _ :: _ => none
  | fuel + 1, c :: rest =>
    if c = '"' then if rest = [] then some [] else none
    else
      match decodeChunk (c :: rest) with
      | none => none
      | some (ch, rest2) => (unescapeGo fuel rest2).map (ch :: ·)

/-- Decode a JSON string literal body (see `unescapeGo`). -/
def unescapeBody (l : List Char) : Option (List Char) :=
  unescapeGo l.length l

/-- Unescape a complete JSON string literal: an opening quote, the escaped
body, a closing quote. -/
def jsonUnescape (s : String) : Option String :=
  match s.data with
  | '"' :: rest => (unescapeBody rest).map (fun l => ⟨l⟩)
  | _ => none

deriving instance DecidableEq for Except

/-! ## Concrete environments and stores, used by witnesses and
counterexamples -/

/-- A benign concrete environment: no `$MINECRAFT_ROOT`, `expanduser` is the
identity, every chest descriptor loads except the one at `/bad` (which
raises `ValueError`), and `Manifest.of(d)` returns a manifest rooted at `d`
itself — the behaviour of `gsb`, whose `Manifest.of(repo_root)` reads
`repo_root/.gsb_manifest` and reports `repo_root` back as `root`. -/
def envW : Env where
  expand := id
  enderChestConfig := id
  fromCfg := fun p => if p = "/bad" then .error .valueError else .ok ⟨p⟩
  gsbOf := fun d => .ok ⟨d⟩
  minecraftRoot := none
  version := "0.1.0"
  now := "2024-01-01 00:00:00"

/-- `envW` with `$MINECRAFT_ROOT=/mc` set. -/
def envM : Env :=
  { envW with minecraftRoot := some "/mc" }

/-- `envW` with an `expanduser` that maps the spelling `~/mc` to
`/home/user/mc` (and leaves every other path alone). -/
def envC4 : Env :=
  { envW with expand := fun p => if p = "~/mc" then "/home/user/mc" else p }

/-- A store reached by registering the save manifest
`/saves/world/.gsb_manifest` on a fresh `Config()` under `envW`: it holds one
save entry keyed by the canonical root `/saves/world`. -/
def saveStore : Config :=
  match (Config.init envW).register_save envW "/saves/world/.gsb_manifest" with
  | .ok c => c
  | .error _ => Config.init envW

/-- A store reached by registering the chest paths `/b` then `/a`, in that
order, on a fresh `Config()` under `envW`. -/
def storeBA : Config :=
  match (Config.init envW).register_enderchest envW "/b" with
  | .ok c1 =>
    match c1.register_enderchest envW "/a" with
    | .ok c2 => c2
    | .error _ => c1
  | .error _ => Config.init envW

/-- A store reached by registering the spelling `~/mc` and then its expansion
`/home/user/mc` on a fresh `Config()` under `envC4`. -/
def twoSpellings : Config :=
  match (Config.init envC4).register_enderchest envC4 "~/mc" with
  | .ok c1 =>
    match c1.register_enderchest envC4 "/home/user/mc" with
    | .ok c2 => c2
    | .error _ => c1
  | .error _ => Config.init envC4

/-! ## Association-list (Python `dict`) lemmas -/

theorem any_eq_key (d : List (String × α)) (k : String) :
    (d.any fun kv => kv.fst == k) = true ↔ k ∈ dictKeys d := by
  simp [dictKeys, List.any_eq_true, List.mem_map]

theorem dictKeys_update (d : List (String × α)) (k : String) (v : α) :
    dictKeys (d.map fun kv => if kv.fst = k then (kv.fst, v) else kv) = dictKeys d := by
  induction d with
  | nil => rfl
  | cons kv rest ih =>
    by_cases h : kv.fst = k <;> simp [dictKeys, h] at ih ⊢ <;> exact ih

theorem dictInsert_of_not_mem {d : List (String × α)} {k : String} (v : α)
    (h : k ∉ dictKeys d) : dictInsert k v d = d ++ [(k, v)] := by
  unfold dictInsert
  rw [if_neg]
  intro hany
  exact h ((any_eq_key d k).mp hany)

theorem dictKeys_dictInsert_of_mem {d : List (String × α)} {k : String} (v : α)
    (h : k ∈ dictKeys d) : dictKeys (dictInsert k v d) = dictKeys d := by
  unfold dictInsert
  rw [if_pos ((any_eq_key d k).mpr h)]
  exact dictKeys_update d k v

theorem mem_dictKeys_dictInsert (x k : String) (v : α) (d : List (String × α)) :
    x ∈ dictKeys (dictInsert k v d) ↔ x = k ∨ x ∈ dictKeys d := by
  by_cases h : k ∈ dictKeys d
  · rw [dictKeys_dictInsert_of_mem v h]
    constructor
    · exact Or.inr
    · rintro (rfl | hx)
      exacts [h, hx]
  · rw [dictInsert_of_not_mem v h]
    simp [dictKeys, or_comm]

theorem nodup_dictKeys_dictInsert (k : String) (v : α) (d : List (String × α))
    (h : (dictKeys d).Nodup) : (dictKeys (dictInsert k v d)).Nodup := by
  by_cases hk : k ∈ dictKeys d
  · rwa [dictKeys_dictInsert_of_mem v hk]
  · rw [dictInsert_of_not_mem v hk]
    simp only [dictKeys, List.map_append, List.map_cons, List.map_nil]
    rw [List.nodup_append_comm]
    exact List.nodup_cons.mpr ⟨hk, h⟩

theorem count_dictKeys_dictInsert (k : String) (v : α) (d : List (String × α))
    (h : (dictKeys d).Nodup) : (dictKeys (dictInsert k v d)).count k = 1 :=
  List.count_eq_one_of_mem (nodup_dictKeys_dictInsert k v d h)
    ((mem_dictKeys_dictInsert k k v d).mpr (Or.inl rfl))

theorem head?_dictKeys_dictInsert (k : String) (v : α) (d : List (String × α))
    (h : d ≠ []) :
    (dictKeys (dictInsert k v d)).head? = (dictKeys d).head? := by
  unfold dictInsert
  split
  · cases d with
    | nil => simp
    | cons kv rest => by_cases hk : kv.fst = k <;> simp [dictKeys, hk]
  · cases d with
    | nil => exact absurd rfl h
    | cons kv rest => simp [dictKeys]

theorem dictInsert_ne_nil (k : String) (v : α) (d : List (String × α)) :
    dictInsert k v d ≠ [] := by
  unfold dictInsert
  split
  · cases d with
    | nil => simp_all
    | cons kv rest => simp
  · simp

/-! ## Registration-step lemmas -/

theorem register_enderchest_ok {env : Env} (c : Config) {p : String} {chest : EnderChest}
    (h : env.fromCfg (env.enderChestConfig (env.expand p)) = .ok chest) :
    c.register_enderchest env p =
      .ok { c with _ender_chests := dictInsert p chest c._ender_chests } := by
  simp [Config.register_enderchest, h]

theorem register_enderchest_error {env : Env} (c : Config) {p : String} {e : RegError}
    (h : env.fromCfg (env.enderChestConfig (env.expand p)) = .error e) :
    c.register_enderchest env p = .error e := by
  simp [Config.register_enderchest, h]

theorem register_save_ok {env : Env} (c : Config) {p : String} {m : GSB_Manifest}
    (h : env.gsbOf (parentPath (env.expand p)) = .ok m) :
    c.register_save env p = .ok { c with _saves := dictInsert m.root m c._saves } := by
  simp [Config.register_save, h]

theorem register_save_error {env : Env} (c : Config) {p : String} {e : RegError}
    (h : env.gsbOf (parentPath (env.expand p)) = .error e) :
    c.register_save env p = .error e := by
  simp [Config.register_save, h]

theorem init_of_none {env : Env} (h : env.minecraftRoot = none) :
    Config.init env = ⟨[], []⟩ := by
  simp [Config.init, h]

theorem tryRegisterChest_saves (env : Env) (c : Config) (p : String) :
    (tryRegisterChest env c p)._saves = c._saves := by
  unfold tryRegisterChest Config.register_enderchest
  cases env.fromCfg (env.enderChestConfig (env.expand p)) <;> rfl

theorem tryRegisterSave_chests (env : Env) (c : Config) (p : String) :
    (tryRegisterSave env c p)._ender_chests = c._ender_chests := by
  unfold tryRegisterSave Config.register_save
  cases env.gsbOf (parentPath (env.expand p)) <;> rfl

theorem foldl_tryRegisterChest_saves (env : Env) (l : List String) (c : Config) :
    (l.foldl (tryRegisterChest env) c)._saves = c._saves := by
  induction l generalizing c with
  | nil => rfl
  | cons p rest ih => rw [List.foldl_cons, ih, tryRegisterChest_saves]

theorem foldl_tryRegisterSave_chests (env : Env) (l : List String) (c : Config) :
    (l.foldl (tryRegisterSave env) c)._ender_chests = c._ender_chests := by
  induction l generalizing c with
  | nil => rfl
  | cons p rest ih => rw [List.foldl_cons, ih, tryRegisterSave_chests]

theorem chestKeys_foldl_mem (env : Env) (l : List String)
    (hall : ∀ q ∈ l, ∃ chest, env.fromCfg (env.enderChestConfig (env.expand q)) = .ok chest)
    (c : Config) (x : String) :
    x ∈ (l.foldl (tryRegisterChest env) c).chestKeys ↔ x ∈ c.chestKeys ∨ x ∈ l := by
  induction l generalizing c with
  | nil => simp
  | cons q rest ih =>
    obtain ⟨chest, hq⟩ := hall q (by simp)
    have hstep : tryRegisterChest env c q =
        { c with _ender_chests := dictInsert q chest c._ender_chests } := by
      rw [tryRegisterChest, register_enderchest_ok c hq]
    rw [List.foldl_cons, hstep, ih (fun q' hq' => hall q' (by simp [hq']))]
    show x ∈ dictKeys (dictInsert q chest c._ender_chests) ∨ x ∈ rest ↔ _
    rw [mem_dictKeys_dictInsert]
    simp only [List.mem_cons, Config.chestKeys]
    tauto

theorem saveKeys_foldl_mem (env : Env) (l : List String)
    (hall : ∀ q ∈ l, ∃ m, env.gsbOf (parentPath (env.expand q)) = .ok m)
    (c : Config) (x : String) :
    x ∈ (l.foldl (tryRegisterSave env) c).saveKeys ↔
      x ∈ c.saveKeys ∨
        ∃ q ∈ l, ∃ m : GSB_Manifest,
          env.gsbOf (parentPath (env.expand q)) = .ok m ∧ m.root = x := by
  induction l generalizing c with
  | nil => simp
  | cons q rest ih =>
    obtain ⟨m, hq⟩ := hall q (by simp)
    have hstep : tryRegisterSave env c q =
        { c with _saves := dictInsert m.root m c._saves } := by
      rw [tryRegisterSave, register_save_ok c hq]
    rw [List.foldl_cons, hstep, ih (fun q' hq' => hall q' (by simp [hq']))]
    show x ∈ dictKeys (dictInsert m.root m c._saves) ∨ _ ↔ _
    rw [mem_dictKeys_dictInsert]
    constructor
    · rintro ((rfl | hx) | hx)
      · exact Or.inr ⟨q, by simp, m, hq, rfl⟩
      · exact Or.inl hx
      · obtain ⟨q', hq', m', hm', rfl⟩ := hx
        exact Or.inr ⟨q', by simp [hq'], m', hm', rfl⟩
    · rintro (hx | ⟨q', hq', m', hm', rfl⟩)
      · exact Or.inl (Or.inr hx)
      · rcases List.mem_cons.mp hq' with rfl | hq'
        · rw [hq] at hm'
          cases hm'
          exact Or.inl (Or.inl rfl)
        · exact Or.inr ⟨q', hq', m', hm', rfl⟩

/-! ## Order lemmas for `strLt` and `sortedSet` -/

theorem charListLt_nil_right (b : List Char) : charListLt b [] = false := by
  cases b <;> rfl

theorem charListLt_irrefl (l : List Char) : charListLt l l = false := by
  induction l with
  | nil => rfl
  | cons c cs ih => simp [charListLt, ih]

theorem charListLt_trans {a b c : List Char} (h1 : charListLt a b = true)
    (h2 : charListLt b c = true) : charListLt a c = true := by
  induction a generalizing b c with
  | nil =>
    cases c with
    | nil => rw [charListLt_nil_right] at h2; exact absurd h2 (by simp)
    | cons z zs => rfl
  | cons x xs ih =>
    cases b with
    | nil => rw [charListLt_nil_right] at h1; exact absurd h1 (by simp)
    | cons y ys =>
      cases c with
      | nil => rw [charListLt_nil_right] at h2; exact absurd h2 (by simp)
      | cons z zs =>
        simp only [charListLt] at h1 h2 ⊢
        by_cases hxy : x < y
        · rw [if_pos hxy] at h1
          by_cases hyz : y < z
          · rw [if_pos (lt_trans hxy hyz)]
          · rw [if_neg hyz] at h2
            by_cases hzy : z < y
            · rw [if_pos hzy] at h2; exact absurd h2 (by simp)
            · have : y = z := le_antisymm (not_lt.mp hzy) (not_lt.mp hyz)
              subst this
              rw [if_pos hxy]
        · rw [if_neg hxy] at h1
          by_cases hyx : y < x
          · rw [if_pos hyx] at h1; exact absurd h1 (by simp)
          · rw [if_neg hyx] at h1
            have hxy' : x = y := le_antisymm (not_lt.mp hyx) (not_lt.mp hxy)
            subst hxy'
            by_cases hxz : x < z
            · rw [if_pos hxz]
            · rw [if_neg hxz] at h2 ⊢
              by_cases hzx : z < x
              · rw [if_pos hzx] at h2; exact absurd h2 (by simp)
              · rw [if_neg hzx] at h2 ⊢
                exact ih h1 h2

theorem charListLt_trichotomy (a b : List Char) :
    charListLt a b = true ∨ a = b ∨ charListLt b a = true := by
  induction a generalizing b with
  | nil =>
    cases b with
    | nil => exact Or.inr (Or.inl rfl)
    | cons y ys => exact Or.inl rfl
  | cons x xs ih =>
    cases b with
    | nil => exact Or.inr (Or.inr rfl)
    | cons y ys =>
      simp only [charListLt]
      rcases lt_trichotomy x y with hxy | rfl | hyx
      · rw [if_pos hxy]; exact Or.inl rfl
      · simp only [if_neg (lt_irrefl x)]
        rcases ih ys with h | rfl | h
        · exact Or.inl h
        · exact Or.inr (Or.inl rfl)
        · exact Or.inr (Or.inr h)
      · simp only [if_neg (lt_asymm hyx), if_pos hyx]
        exact Or.inr (Or.inr trivial)

theorem charListLt_asymm {a b : List Char} (h : charListLt a b = true) :
    charListLt b a = false := by
  by_contra hba
  have hba' : charListLt b a = true := by
    cases hc : charListLt b a
    · exact absurd hc hba
    · rfl
  have := charListLt_trans h hba'
  rw [charListLt_irrefl] at this
  exact absurd this (by simp)

theorem strLt_trans {x y z : String} (h1 : strLt x y = true) (h2 : strLt y z = true) :
    strLt x z = true :=
  charListLt_trans h1 h2

theorem strLt_asymm {x y : String} (h : strLt x y = true) : strLt y x = false :=
  charListLt_asymm h

theorem strLt_irrefl (x : String) : strLt x x = false :=
  charListLt_irrefl x.data

theorem strLt_trichotomy (x y : String) : strLt x y = true ∨ x = y ∨ strLt y x = true := by
  rcases charListLt_trichotomy x.data y.data with h | h | h
  · exact Or.inl h
  · refine Or.inr (Or.inl ?_)
    cases x; cases y
    exact congrArg String.mk h
  · exact Or.inr (Or.inr h)

theorem mem_insertSorted (x a : String) (l : List String) :
    a ∈ insertSorted x l ↔ a = x ∨ a ∈ l := by
  induction l with
  | nil => simp [insertSorted]
  | cons y ys ih =>
    simp only [insertSorted]
    by_cases h1 : strLt x y = true
    · simp [h1]
    · rw [if_neg h1]
      by_cases h2 : x = y
      · subst h2
        simp
      · rw [if_neg h2]
        simp only [List.mem_cons, ih]
        tauto

theorem sorted_insertSorted (x : String) {l : List String}
    (h : List.Sorted (fun a b => strLt a b = true) l) :
    List.Sorted (fun a b => strLt a b = true) (insertSorted x l) := by
  induction l with
  | nil => simp [insertSorted]
  | cons y ys ih =>
    rw [List.sorted_cons] at h
    obtain ⟨hy, hys⟩ := h
    simp only [insertSorted]
    by_cases h1 : strLt x y = true
    · rw [if_pos h1]
      refine List.sorted_cons.mpr ⟨?_, List.sorted_cons.mpr ⟨hy, hys⟩⟩
      intro b hb
      rcases List.mem_cons.mp hb with rfl | hb
      · exact h1
      · exact strLt_trans h1 (hy b hb)
    · rw [if_neg h1]
      by_cases h2 : x = y
      · rw [if_pos h2]
        exact List.sorted_cons.mpr ⟨hy, hys⟩
      · rw [if_neg h2]
        refine List.sorted_cons.mpr ⟨?_, ih hys⟩
        intro b hb
        rcases (mem_insertSorted x b ys).mp hb with rfl | hb
        · rcases strLt_trichotomy b y with h3 | h3 | h3
          · exact absurd h3 h1
          · exact absurd h3 h2
          · exact h3
        · exact hy b hb

theorem mem_sortedSet (a : String) (l : List String) : a ∈ sortedSet l ↔ a ∈ l := by
  induction l with
  | nil => simp [sortedSet]
  | cons x xs ih =>
    show a ∈ insertSorted x (sortedSet xs) ↔ _
    rw [mem_insertSorted, ih]
    simp

theorem sortedSet_sorted (l : List String) :
    List.Sorted (fun a b => strLt a b = true) (sortedSet l) := by
  induction l with
  | nil => simp [sortedSet]
  | cons x xs ih => exact sorted_insertSorted x ih

theorem sortedSet_nodup (l : List String) : (sortedSet l).Nodup := by
  haveI : IsIrrefl String (fun a b => strLt a b = true) :=
    ⟨fun a h => by rw [strLt_irrefl] at h; exact absurd h (by simp)⟩
  exact (sortedSet_sorted l).nodup

theorem sortedSet_perm_invariant {l l' : List String} (h : l.Perm l') :
    sortedSet l = sortedSet l' := by
  haveI : IsAntisymm String (fun a b => strLt a b = true) :=
    ⟨fun a b h1 h2 => by rw [strLt_asymm h1] at h2; exact absurd h2 (by simp)⟩
  refine List.eq_of_perm_of_sorted ?_ (sortedSet_sorted l) (sortedSet_sorted l')
  rw [List.perm_ext_iff_of_nodup (sortedSet_nodup l) (sortedSet_nodup l')]
  intro a
  rw [mem_sortedSet, mem_sortedSet]
  exact ⟨fun ha => h.mem_iff.mp ha, fun ha => h.mem_iff.mpr ha⟩


/-! ## Escape / unescape round-trip lemmas -/

theorem parseHexDigit_hexDigitChar : ∀ k, k < 16 → parseHexDigit (hexDigitChar k) = some k := by
  decide

theorem hexQuad_hex4 {n : Nat} (h : n < 0x10000) :
    hexQuad (hexDigitChar (n / 4096 % 16)) (hexDigitChar (n / 256 % 16))
      (hexDigitChar (n / 16 % 16)) (hexDigitChar (n % 16)) = some n := by
  simp only [hexQuad,
    parseHexDigit_hexDigitChar _ (Nat.mod_lt _ (by norm_num)),
    parseHexDigit_hexDigitChar _ (Nat.mod_lt _ (by norm_num)),
    parseHexDigit_hexDigitChar _ (Nat.mod_lt _ (by norm_num)),
    parseHexDigit_hexDigitChar _ (Nat.mod_lt _ (by norm_num))]
  congr 1
  omega

theorem char_toNat_valid (c : Char) :
    c.toNat < 0xd800 ∨ (0xdfff < c.toNat ∧ c.toNat < 0x110000) := by
  rcases c with ⟨v, hv⟩
  rcases hv with h | ⟨hl, hr⟩
  · exact Or.inl (UInt32.toNat_lt_of_lt (by decide) h)
  · exact Or.inr ⟨UInt32.lt_toNat_of_lt (by decide) hl,
      UInt32.toNat_lt_of_lt (by decide) hr⟩

theorem decodeChunk_cons (c : Char) (rest : List Char) :
    decodeChunk (c :: rest) =
      if c = '"' then none
      else if c = '\\' then decodeEsc rest
      else if c.toNat < 0x20 then none
      else some (c, rest) := rfl

theorem decodeChunk_u (a b c d : Char) (tail : List Char) :
    decodeChunk ('\\' :: 'u' :: a :: b :: c :: d :: tail) =
      decodeU (hexQuad a b c d) tail := rfl

theorem decodeU_some (n : Nat) (l : List Char) :
    decodeU (some n) l =
      if n < 0xd800 then some (Char.ofNat n, l)
      else if n < 0xdc00 then
        (match l with
         | '\\' :: 'u' :: a :: b :: c :: d :: rest2 => decodeU2 n (hexQuad a b c d) rest2
         | _ => none)
      else if n < 0xe000 then none
      else some (Char.ofNat n, l) := rfl

theorem decodeU_pair {n : Nat} (hn1 : ¬ n < 0xd800) (hn2 : n < 0xdc00)
    (a b c d : Char) (rest : List Char) :
    decodeU (some n) ('\\' :: 'u' :: a :: b :: c :: d :: rest) =
      decodeU2 n (hexQuad a b c d) rest := by
  rw [decodeU_some, if_neg hn1, if_pos hn2]
  rfl

theorem decodeU2_some (n m : Nat) (l : List Char) :
    decodeU2 n (some m) l =
      if 0xdc00 ≤ m ∧ m < 0xe000 then
        some (Char.ofNat (0x10000 + (n - 0xd800) * 1024 + (m - 0xdc00)), l)
      else none := rfl

theorem decodeChunk_escapeChar (c : Char) (rest : List Char) :
    decodeChunk (escapeChar c ++ rest) = some (c, rest) := by
  by_cases h1 : c = '"'
  · subst h1; rfl
  by_cases h2 : c = '\\'
  · subst h2; rfl
  by_cases h3 : c = '\n'
  · subst h3; rfl
  by_cases h4 : c = '\r'
  · subst h4; rfl
  by_cases h5 : c = '\t'
  · subst h5; rfl
  by_cases h6 : c = '\x08'
  · subst h6; rfl
  by_cases h7 : c = '\x0c'
  · subst h7; rfl
  by_cases h8 : 0x20 ≤ c.toNat ∧ c.toNat ≤ 0x7e
  · have h9 : ¬ c.toNat < 0x20 := by omega
    have hesc : escapeChar c = [c] := by
      simp [escapeChar, h1, h2, h3, h4, h5, h6, h7, h8]
    rw [hesc, List.singleton_append, decodeChunk_cons, if_neg h1, if_neg h2, if_neg h9]
  by_cases h10 : c.toNat < 0x10000
  · have hesc : escapeChar c = '\\' :: 'u' :: hex4 c.toNat := by
      simp [escapeChar, h1, h2, h3, h4, h5, h6, h7, h8, h10]
    rw [hesc]
    simp only [hex4, List.cons_append, List.nil_append]
    rw [decodeChunk_u, hexQuad_hex4 h10, decodeU_some]
    rcases char_toNat_valid c with hv | ⟨hv1, hv2⟩
    · rw [if_pos hv, Char.ofNat_toNat]
    · have hv3 : ¬ c.toNat < 0xd800 := by omega
      have hv4 : ¬ c.toNat < 0xdc00 := by omega
      have hv5 : ¬ c.toNat < 0xe000 := by omega
      rw [if_neg hv3, if_neg hv4, if_neg hv5, Char.ofNat_toNat]
  · have hesc : escapeChar c =
        ('\\' :: 'u' :: hex4 (0xd800 + (c.toNat - 0x10000) / 1024)) ++
          ('\\' :: 'u' :: hex4 (0xdc00 + (c.toNat - 0x10000) % 1024)) := by
      simp [escapeChar, h1, h2, h3, h4, h5, h6, h7, h8, h10]
    rcases char_toNat_valid c with hv | ⟨hv1, hv2⟩
    · omega
    · have hhi : 0xd800 + (c.toNat - 0x10000) / 1024 < 0x10000 := by omega
      have hlo : 0xdc00 + (c.toNat - 0x10000) % 1024 < 0x10000 := by omega
      have hc1 : ¬ 0xd800 + (c.toNat - 0x10000) / 1024 < 0xd800 := by omega
      have hc2 : 0xd800 + (c.toNat - 0x10000) / 1024 < 0xdc00 := by omega
      have hc3 : 0xdc00 ≤ 0xdc00 + (c.toNat - 0x10000) % 1024 := by omega
      have hc4 : 0xdc00 + (c.toNat - 0x10000) % 1024 < 0xe000 := by omega
      rw [hesc, List.append_assoc]
      simp only [hex4, List.cons_append, List.nil_append]
      rw [decodeChunk_u, hexQuad_hex4 hhi, decodeU_pair hc1 hc2, hexQuad_hex4 hlo,
        decodeU2_some, if_pos ⟨hc3, hc4⟩,
        show 0x10000 + (0xd800 + (c.toNat - 0x10000) / 1024 - 0xd800) * 1024 +
            (0xdc00 + (c.toNat - 0x10000) % 1024 - 0xdc00) = c.toNat from by omega,
        Char.ofNat_toNat]

theorem unescapeGo_cons (fuel : Nat) (c : Char) (rest : List Char) :
    unescapeGo (fuel + 1) (c :: rest) =
      if c = '"' then if rest = [] then some [] else none
      else
        match decodeChunk (c :: rest) with
        | none => none
        | some (ch, rest2) => (unescapeGo fuel rest2).map (ch :: ·) := rfl

theorem escapeChar_head (c : Char) :
    ∃ h t, escapeChar c = h :: t ∧ ¬ h = '"' := by
  unfold escapeChar
  split_ifs with h1 h2 h3 h4 h5 h6 h7 h8 h9 <;>
    exact ⟨_, _, rfl, by first | decide | exact h1⟩

theorem unescapeGo_escapeChar (c : Char) (rest : List Char) (fuel : Nat) :
    unescapeGo (fuel + 1) (escapeChar c ++ rest) = (unescapeGo fuel rest).map (c :: ·) := by
  obtain ⟨h, t, hesc, hh⟩ := escapeChar_head c
  have hd : decodeChunk (h :: (t ++ rest)) = some (c, rest) := by
    rw [show h :: (t ++ rest) = escapeChar c ++ rest by rw [hesc]; rfl]
    exact decodeChunk_escapeChar c rest
  rw [hesc]
  show unescapeGo (fuel + 1) (h :: (t ++ rest)) = _
  rw [unescapeGo_cons, if_neg hh, hd]

theorem unescapeGo_flatten (l : List Char) (fuel : Nat) :
    unescapeGo (fuel + l.length + 1) ((l.map escapeChar).flatten ++ ['"']) = some l := by
  induction l generalizing fuel with
  | nil => rfl
  | cons c cs ih =>
    have harith : fuel + (c :: cs).length + 1 = (fuel + cs.length + 1) + 1 := by
      simp only [List.length_cons]
      omega
    rw [harith, List.map_cons, List.flatten_cons, List.append_assoc,
      unescapeGo_escapeChar, ih]
    rfl

theorem length_le_flatten_escape (l : List Char) :
    l.length ≤ (l.map escapeChar).flatten.length := by
  induction l with
  | nil => simp
  | cons c cs ih =>
    rw [List.map_cons, List.flatten_cons, List.length_append, List.length_cons]
    have hpos : 1 ≤ (escapeChar c).length := by
      obtain ⟨h, t, hesc, _⟩ := escapeChar_head c
      rw [hesc]
      simp
    omega

theorem unescapeBody_flatten (l : List Char) :
    unescapeBody ((l.map escapeChar).flatten ++ ['"']) = some l := by
  unfold unescapeBody
  have hlen : ((l.map escapeChar).flatten ++ ['"']).length =
      ((l.map escapeChar).flatten.length - l.length) + l.length + 1 := by
    have h := length_le_flatten_escape l
    simp only [List.length_append, List.length_cons, List.length_nil]
    omega
  rw [hlen]
  exact unescapeGo_flatten l _

theorem jsonUnescape_jsonDumps (s : String) : jsonUnescape (jsonDumps s) = some s := by
  have h : jsonUnescape (jsonDumps s) =
      (unescapeBody ((s.data.map escapeChar).flatten ++ ['"'])).map
        (fun l => (⟨l⟩ : String)) := rfl
  rw [h, unescapeBody_flatten]
  cases s
  rfl

/-! ## `from_config` unfolding lemmas -/

theorem from_config_error (env : Env) (e : LoadError) :
    Config.from_config env (.error e) = .error e := rfl

theorem from_config_missing_chests (env : Env) (doc : TomlDoc)
    (h : lookupToml doc "ender_chests" = none) :
    Config.from_config env (.ok doc) = .error (.keyError "ender_chests") := by
  simp [Config.from_config, h]

theorem from_config_missing_saves (env : Env) (doc : TomlDoc) (cv : TomlValue)
    (hc : lookupToml doc "ender_chests" = some cv)
    (h : lookupToml doc "saves" = none) :
    Config.from_config env (.ok doc) = .error (.keyError "saves") := by
  simp [Config.from_config, hc, h]

theorem from_config_ok (env : Env) (doc : TomlDoc) (cv sv : TomlValue)
    (hc : lookupToml doc "ender_chests" = some cv)
    (hs : lookupToml doc "saves" = some sv) :
    Config.from_config env (.ok doc) =
      .ok ((iterToml sv).foldl (tryRegisterSave env)
        ((iterToml cv).foldl (tryRegisterChest env) (Config.init env))) := by
  simp [Config.from_config, hc, hs]

theorem init_of_some {env : Env} {r : String} {chest : EnderChest}
    (henv : env.minecraftRoot = some r) (hr : r ≠ "")
    (hload : env.fromCfg (env.enderChestConfig (env.expand r)) = .ok chest) :
    Config.init env = ⟨[(r, chest)], []⟩ := by
  simp only [Config.init, henv, register_enderchest_ok _ hload, if_neg hr]
  simp [dictInsert]

/-! ## Head-preservation lemmas (for the `$MINECRAFT_ROOT` first-entry fact) -/

theorem head?_tryRegisterChest (env : Env) (c : Config) (p : String)
    (h : c._ender_chests ≠ []) :
    (tryRegisterChest env c p).chestKeys.head? = c.chestKeys.head? ∧
      (tryRegisterChest env c p)._ender_chests ≠ [] := by
  unfold tryRegisterChest Config.register_enderchest
  cases env.fromCfg (env.enderChestConfig (env.expand p)) with
  | error e => exact ⟨rfl, h⟩
  | ok chest =>
    exact ⟨head?_dictKeys_dictInsert p chest c._ender_chests h, dictInsert_ne_nil p chest _⟩

theorem head?_foldl_tryRegisterChest (env : Env) (l : List String) (c : Config)
    (h : c._ender_chests ≠ []) :
    (l.foldl (tryRegisterChest env) c).chestKeys.head? = c.chestKeys.head? ∧
      (l.foldl (tryRegisterChest env) c)._ender_chests ≠ [] := by
  induction l generalizing c with
  | nil => exact ⟨rfl, h⟩
  | cons p rest ih =>
    obtain ⟨h1, h2⟩ := head?_tryRegisterChest env c p h
    obtain ⟨h3, h4⟩ := ih (tryRegisterChest env c p) h2
    exact ⟨by rw [List.foldl_cons, h3, h1], by rw [List.foldl_cons]; exact h4⟩

/-! ## The claims -/

/-- Claim C2 (confirmed): loading a source file whose chest list holds one
path whose registration fails (with a `ValueError`/`OSError`) and one whose
registration succeeds registers exactly the valid path and returns normally
(the failure is only logged); a failed registration returns the error before
storing anything, so the replay loop keeps the previous store — in
particular any previously stored entry for the failing path — unchanged. -/
theorem c2_partial_failure_isolation (env : Env) (bad good : String)
    (e : RegError) (chest : EnderChest)
    (henv : env.minecraftRoot = none)
    (hbad : env.fromCfg (env.enderChestConfig (env.expand bad)) = .error e)
    (hgood : env.fromCfg (env.enderChestConfig (env.expand good)) = .ok chest) :
    (∃ c : Config,
      Config.from_config env
          (.ok [("ender_chests", .arr [bad, good]), ("saves", .arr [])]) = .ok c ∧
        c._ender_chests = [(good, chest)]) ∧
      (∀ c0 : Config, c0.register_enderchest env bad = .error e) ∧
      (∀ c0 : Config, tryRegisterChest env c0 bad = c0) := by
  have hstep1 : tryRegisterChest env ⟨[], []⟩ bad = ⟨[], []⟩ := by
    unfold tryRegisterChest
    rw [register_enderchest_error _ hbad]
  have hstep2 : tryRegisterChest env ⟨[], []⟩ good = ⟨[(good, chest)], []⟩ := by
    unfold tryRegisterChest
    rw [register_enderchest_ok _ hgood]
    simp [dictInsert]
  refine ⟨⟨⟨[(good, chest)], []⟩, ?_, rfl⟩, fun c0 => register_enderchest_error c0 hbad,
    fun c0 => ?_⟩
  · rw [from_config_ok env [("ender_chests", .arr [bad, good]), ("saves", .arr [])]
      (.arr [bad, good]) (.arr []) rfl rfl, init_of_none henv]
    show Except.ok (([] : List String).foldl (tryRegisterSave env)
      ([bad, good].foldl (tryRegisterChest env) ⟨[], []⟩)) = _
    rw [List.foldl_cons, hstep1, List.foldl_cons, hstep2]
    rfl
  · unfold tryRegisterChest
    rw [register_enderchest_error c0 hbad]

/-- Claim C2 witness: under `envW`, loading a document listing the failing
path `/bad` and the valid path `/good` yields a store holding exactly
`/good`. -/
theorem c2_witness :
    envW.minecraftRoot = none ∧
    envW.fromCfg (envW.enderChestConfig (envW.expand "/bad")) = .error .valueError ∧
    envW.fromCfg (envW.enderChestConfig (envW.expand "/good")) = .ok ⟨"/good"⟩ ∧
    ((∃ c : Config,
      Config.from_config envW
          (.ok [("ender_chests", .arr ["/bad", "/good"]), ("saves", .arr [])]) = .ok c ∧
        c._ender_chests = [("/good", ⟨"/good"⟩)]) ∧
      (∀ c0 : Config, c0.register_enderchest envW "/bad" = .error .valueError) ∧
      (∀ c0 : Config, tryRegisterChest envW c0 "/bad" = c0)) :=
  ⟨rfl, by decide, by decide,
    c2_partial_failure_isolation envW "/bad" "/good" .valueError ⟨"/good"⟩ rfl
      (by decide) (by decide)⟩

/-- Claim C3 counterexample: on the first line `rsync version 3.2.0` the
probe returns `head[len("rsync"):].strip()`, which is `"version 3.2.0"` —
the `version ` prefix is kept — not the claimed bare `"3.2.0"`. -/
theorem c3_probe_counterexample :
    _get_rsync_version true "rsync version 3.2.0" = "version 3.2.0" ∧
    "version 3.2.0" ≠ "3.2.0" := by
  exact ⟨by decide, by decide⟩

/-- Claim C3 (amended): a parsed version below the 3.2 minimum yields `""`;
an unparsable first line yields `""` (as does a missing binary or empty
output); and an accepted first line `rsync version 3.2.0` yields the line
with the leading `rsync` stripped and whitespace trimmed — `"version
3.2.0"`, which still carries the literal word `version`. -/
theorem c3_probe_amended :
    _get_rsync_version true "rsync version 2.9.1" = "" ∧
    _get_rsync_version true "rsync version 3.1.9" = "" ∧
    _get_rsync_version true "bash: rsync: command not found" = "" ∧
    _get_rsync_version true "" = "" ∧
    _get_rsync_version false "rsync version 3.2.0" = "" ∧
    _get_rsync_version true "rsync version 3.2.0" = "version 3.2.0" ∧
    _get_rsync_version true "rsync  version 3.2.7  protocol version 31\n" =
      "version 3.2.7  protocol version 31" := by
  exact ⟨by decide, by decide, by decide, by decide, by decide, by decide, by decide⟩

/-- Claim C7 (confirmed): registering two manifest paths that the external
resolver maps (via the expanded path's parent directory) to the same
canonical root `r` on a fresh store yields exactly one save entry, keyed by
`r` — not by either input path. -/
theorem c7_save_collapse (env : Env) (p1 p2 r : String) (m1 m2 : GSB_Manifest)
    (henv : env.minecraftRoot = none)
    (h1 : env.gsbOf (parentPath (env.expand p1)) = .ok m1)
    (h2 : env.gsbOf (parentPath (env.expand p2)) = .ok m2)
    (hr1 : m1.root = r) (hr2 : m2.root = r) :
    ∃ c1 c2 : Config,
      (Config.init env).register_save env p1 = .ok c1 ∧
      c1.register_save env p2 = .ok c2 ∧
      c2._saves = [(r, m2)] ∧ c2.saveKeys = [r] := by
  rw [init_of_none henv]
  refine ⟨_, _, register_save_ok _ h1, register_save_ok _ h2, ?_, ?_⟩
  · show dictInsert m2.root m2 (dictInsert m1.root m1 []) = [(r, m2)]
    rw [hr1, hr2]
    simp [dictInsert]
  · show dictKeys (dictInsert m2.root m2 (dictInsert m1.root m1 [])) = [r]
    rw [hr1, hr2]
    simp [dictInsert, dictKeys]

/-- Claim C7 witness: two manifest paths inside the same repository under
`envW` (where `Manifest.of(d)` is rooted at `d`) collapse onto one entry. -/
theorem c7_witness :
    envW.gsbOf (parentPath (envW.expand "/repo/.gsb_manifest")) = .ok ⟨"/repo"⟩ ∧
    envW.gsbOf (parentPath (envW.expand "/repo/anyfile"))= .ok ⟨"/repo"⟩ ∧
    (∃ c1 c2 : Config,
      (Config.init envW).register_save envW "/repo/.gsb_manifest" = .ok c1 ∧
      c1.register_save envW "/repo/anyfile" = .ok c2 ∧
      c2._saves = [("/repo", ⟨"/repo"⟩)] ∧ c2.saveKeys = ["/repo"]) :=
  ⟨by decide, by decide,
    c7_save_collapse envW "/repo/.gsb_manifest" "/repo/anyfile" "/repo"
      ⟨"/repo"⟩ ⟨"/repo"⟩ rfl (by decide) (by decide) rfl rfl⟩

/-- Claim C10 (confirmed): `from_config`'s partial-failure tolerance covers
only per-entry registration failures.  Whole-document failures propagate
uncaught: an `OSError` from `read_text` or a `TOMLDecodeError` from
`tomllib.loads` is returned as-is, a document without an `"ender_chests"`
key raises `KeyError("ender_chests")`, and one without a `"saves"` key
raises `KeyError("saves")` — in every case `from_config` produces an error,
never a store. -/
theorem c10_document_errors (env : Env) :
    (∀ e : LoadError, Config.from_config env (.error e) = .error e) ∧
    (∀ doc : TomlDoc, lookupToml doc "ender_chests" = none →
      Config.from_config env (.ok doc) = .error (.keyError "ender_chests")) ∧
    (∀ (doc : TomlDoc) (cv : TomlValue), lookupToml doc "ender_chests" = some cv →
      lookupToml doc "saves" = none →
      Config.from_config env (.ok doc) = .error (.keyError "saves")) :=
  ⟨fun e => from_config_error env e,
   fun doc h => from_config_missing_chests env doc h,
   fun doc cv hc h => from_config_missing_saves env doc cv hc h⟩

/-- Claim C10 witness: the three whole-document failures at concrete
inputs. -/
theorem c10_witness :
    lookupToml [] "ender_chests" = none ∧
    lookupToml [("ender_chests", .arr [])] "ender_chests" = some (.arr []) ∧
    lookupToml [("ender_chests", .arr [])] "saves" = none ∧
    Config.from_config envW (.error .ioError) = .error .ioError ∧
    Config.from_config envW (.error .tomlDecodeError) = .error .tomlDecodeError ∧
    Config.from_config envW (.ok []) = .error (.keyError "ender_chests") ∧
    Config.from_config envW (.ok [("ender_chests", .arr [])]) =
      .error (.keyError "saves") :=
  ⟨rfl, rfl, rfl, (c10_document_errors envW).1 .ioError,
    (c10_document_errors envW).1 .tomlDecodeError,
    (c10_document_errors envW).2.1 [] rfl,
    (c10_document_errors envW).2.2 [("ender_chests", .arr [])] (.arr []) rfl rfl⟩

/-- Claim C5 (confirmed): `_to_toml` renders every list value in strictly
sorted (lexicographic by code point), duplicate-free order, independent of
insertion order, as `key = [` followed by one four-space-indented quoted
element with a trailing comma per line and a closing `]` on its own line;
a store with chests `/b` then `/a` (in that order) serializes with the
`ender_chests` array section reading exactly
`ender_chests = [\n    "/a",\n    "/b",\n]\n`. -/
theorem c5_sorted_rendering (key : String) (l l' : List String) (h : l.Perm l') :
    renderEntry key (.list l) = renderEntry key (.list l') ∧
    List.Sorted (fun a b => strLt a b = true) (sortedSet l) ∧
    (sortedSet l).Nodup ∧
    renderEntry key (.list l) =
      key ++ " = " ++ ("[" ++ String.join ((sortedSet l).map
        (fun entry => "\n    " ++ jsonDumps entry ++ ",")) ++ "\n]\n") ∧
    renderEntry "ender_chests" (.list ["/b", "/a"]) =
      "ender_chests = [\n    \"/a\",\n    \"/b\",\n]\n" ∧
    Config.write envW storeBA =
      "generated_by_enderchest_gui = \"0.1.0\"\n" ++
        "last_modified = \"2024-01-01 00:00:00\"\n" ++
        "ender_chests = [\n    \"/a\",\n    \"/b\",\n]\n" ++
        "saves = [\n]\n" := by
  refine ⟨?_, sortedSet_sorted l, sortedSet_nodup l, rfl, by decide, by decide⟩
  show key ++ " = " ++ ("[" ++ String.join ((sortedSet l).map
      (fun entry => "\n    " ++ jsonDumps entry ++ ",")) ++ "\n]\n") =
    key ++ " = " ++ ("[" ++ String.join ((sortedSet l').map
      (fun entry => "\n    " ++ jsonDumps entry ++ ",")) ++ "\n]\n")
  rw [sortedSet_perm_invariant h]

/-- Claim C5 witness: the permutation hypothesis holds for the two insertion
orders of `/a` and `/b`, and the rendering is identical for both. -/
theorem c5_witness :
    (["/b", "/a"].Perm ["/a", "/b"]) ∧
    renderEntry "ender_chests" (.list ["/b", "/a"]) =
      renderEntry "ender_chests" (.list ["/a", "/b"]) ∧
    renderEntry "ender_chests" (.list ["/b", "/a"]) =
      "ender_chests = [\n    \"/a\",\n    \"/b\",\n]\n" :=
  ⟨List.Perm.swap "/a" "/b" [],
    (c5_sorted_rendering "ender_chests" ["/b", "/a"] ["/a", "/b"]
      (List.Perm.swap "/a" "/b" [])).1,
    (c5_sorted_rendering "ender_chests" ["/b", "/a"] ["/a", "/b"]
      (List.Perm.swap "/a" "/b" [])).2.2.2.2.1⟩

/-- Claim C6 (confirmed): when the descriptor for `p` loads, registering `p`
twice upserts idempotently — both calls succeed, the second re-registration
leaves the key sequence (and hence each entry's position and the length of
the `ender_chests` listing) exactly as after the first, the store holds
exactly one entry for `p`, and a first-time registration appends `p` at the
end of the insertion order. -/
theorem c6_idempotent_upsert (env : Env) (c : Config) (p : String)
    (chest : EnderChest)
    (hn : c.chestKeys.Nodup)
    (h : env.fromCfg (env.enderChestConfig (env.expand p)) = .ok chest) :
    ∃ c1 c2 : Config,
      c.register_enderchest env p = .ok c1 ∧
      c1.register_enderchest env p = .ok c2 ∧
      c2.chestKeys.count p = 1 ∧
      c2.chestKeys = c1.chestKeys ∧
      c2.ender_chests.length = c1.ender_chests.length ∧
      (p ∉ c.chestKeys → c1.chestKeys = c.chestKeys ++ [p]) := by
  refine ⟨_, _, register_enderchest_ok c h, register_enderchest_ok _ h, ?_, ?_, ?_, ?_⟩
  · exact count_dictKeys_dictInsert p chest _ (nodup_dictKeys_dictInsert p chest _ hn)
  · exact dictKeys_dictInsert_of_mem chest
      ((mem_dictKeys_dictInsert p p chest _).mpr (Or.inl rfl))
  · have hkeys : dictKeys (dictInsert p chest (dictInsert p chest c._ender_chests)) =
        dictKeys (dictInsert p chest c._ender_chests) :=
      dictKeys_dictInsert_of_mem chest
        ((mem_dictKeys_dictInsert p p chest _).mpr (Or.inl rfl))
    have hlen := congrArg List.length hkeys
    simp only [dictKeys, List.length_map] at hlen
    show (List.map Prod.snd (dictInsert p chest (dictInsert p chest c._ender_chests))).length =
      (List.map Prod.snd (dictInsert p chest c._ender_chests)).length
    simp only [List.length_map]
    exact hlen
  · intro hp
    show dictKeys (dictInsert p chest c._ender_chests) = c.chestKeys ++ [p]
    rw [dictInsert_of_not_mem chest hp]
    simp [dictKeys, Config.chestKeys]

/-- Claim C6 witness: registering `/tmp/mc` twice on a fresh store under
`envW` keeps exactly one entry for it, at the same position. -/
theorem c6_witness :
    (Config.init envW).chestKeys.Nodup ∧
    envW.fromCfg (envW.enderChestConfig (envW.expand "/tmp/mc")) = .ok ⟨"/tmp/mc"⟩ ∧
    (∃ c1 c2 : Config,
      (Config.init envW).register_enderchest envW "/tmp/mc" = .ok c1 ∧
      c1.register_enderchest envW "/tmp/mc" = .ok c2 ∧
      c2.chestKeys.count "/tmp/mc" = 1 ∧
      c2.chestKeys = c1.chestKeys ∧
      c2.ender_chests.length = c1.ender_chests.length ∧
      ("/tmp/mc" ∉ (Config.init envW).chestKeys →
        c1.chestKeys = (Config.init envW).chestKeys ++ ["/tmp/mc"])) :=
  ⟨by decide, by decide,
    c6_idempotent_upsert envW (Config.init envW) "/tmp/mc" ⟨"/tmp/mc"⟩
      (by decide) (by decide)⟩

/-- Claim C9 (confirmed): `from_config` builds its result via `Config()`,
which auto-registers `$MINECRAFT_ROOT`; so whenever that variable is set
(non-empty) and its chest loads, the loaded store holds that chest as its
FIRST entry — regardless of the file's contents (re-registering it from the
file keeps its position, per-entry failures keep the store, and save
registrations never touch the chest mapping).  The loaded store is therefore
not determined by the file's contents alone. -/
theorem c9_env_chest_first (env : Env) (r : String) (chest : EnderChest)
    (doc : TomlDoc) (cv sv : TomlValue)
    (henv : env.minecraftRoot = some r) (hr : r ≠ "")
    (hload : env.fromCfg (env.enderChestConfig (env.expand r)) = .ok chest)
    (hc : lookupToml doc "ender_chests" = some cv)
    (hs : lookupToml doc "saves" = some sv) :
    ∃ c : Config, Config.from_config env (.ok doc) = .ok c ∧
      c.chestKeys.head? = some r ∧ r ∈ c.chestKeys := by
  rw [from_config_ok env doc cv sv hc hs]
  have hinit := init_of_some henv hr hload
  obtain ⟨hh, hne⟩ := head?_foldl_tryRegisterChest env (iterToml cv) (Config.init env)
    (by rw [hinit]; simp)
  have hsaves := foldl_tryRegisterSave_chests env (iterToml sv)
    ((iterToml cv).foldl (tryRegisterChest env) (Config.init env))
  have hck : ((iterToml sv).foldl (tryRegisterSave env)
        ((iterToml cv).foldl (tryRegisterChest env) (Config.init env))).chestKeys =
      ((iterToml cv).foldl (tryRegisterChest env) (Config.init env)).chestKeys :=
    congrArg dictKeys hsaves
  have hhead : ((iterToml sv).foldl (tryRegisterSave env)
        ((iterToml cv).foldl (tryRegisterChest env) (Config.init env))).chestKeys.head? =
      some r := by
    rw [hck, hh, hinit]
    rfl
  exact ⟨_, rfl, hhead, List.mem_of_mem_head? (by rw [hhead]; rfl)⟩

/-- Claim C9 witness: with `$MINECRAFT_ROOT=/mc` (environment `envM`),
loading a file listing only `/x` produces a store whose first chest is
`/mc` — a path absent from the file. -/
theorem c9_witness :
    envM.minecraftRoot = some "/mc" ∧ "/mc" ≠ "" ∧
    envM.fromCfg (envM.enderChestConfig (envM.expand "/mc")) = .ok ⟨"/mc"⟩ ∧
    lookupToml [("ender_chests", .arr ["/x"]), ("saves", .arr [])]
      "ender_chests" = some (.arr ["/x"]) ∧
    lookupToml [("ender_chests", .arr ["/x"]), ("saves", .arr [])]
      "saves" = some (.arr []) ∧
    (∃ c : Config,
      Config.from_config envM
          (.ok [("ender_chests", .arr ["/x"]), ("saves", .arr [])]) = .ok c ∧
      c.chestKeys.head? = some "/mc" ∧ "/mc" ∈ c.chestKeys) :=
  ⟨rfl, by decide, by decide, rfl, rfl,
    c9_env_chest_first envM "/mc" ⟨"/mc"⟩
      [("ender_chests", .arr ["/x"]), ("saves", .arr [])] (.arr ["/x"]) (.arr [])
      rfl (by decide) (by decide) rfl rfl⟩

theorem register_enderchest_ok_inv {env : Env} {c : Config} {p : String} {c' : Config}
    (h : c.register_enderchest env p = .ok c') :
    ∃ chest, env.fromCfg (env.enderChestConfig (env.expand p)) = .ok chest ∧
      c' = { c with _ender_chests := dictInsert p chest c._ender_chests } := by
  unfold Config.register_enderchest at h
  cases hf : env.fromCfg (env.enderChestConfig (env.expand p)) with
  | error e => rw [hf] at h; exact absurd h (by simp)
  | ok chest =>
    rw [hf] at h
    cases h
    exact ⟨chest, rfl, rfl⟩

theorem register_save_ok_inv {env : Env} {c : Config} {p : String} {c' : Config}
    (h : c.register_save env p = .ok c') :
    ∃ m : GSB_Manifest, env.gsbOf (parentPath (env.expand p)) = .ok m ∧
      c' = { c with _saves := dictInsert m.root m c._saves } := by
  unfold Config.register_save at h
  cases hf : env.gsbOf (parentPath (env.expand p)) with
  | error e => rw [hf] at h; exact absurd h (by simp)
  | ok m =>
    rw [hf] at h
    cases h
    exact ⟨m, rfl, rfl⟩

theorem init_nodup (env : Env) :
    (Config.init env).chestKeys.Nodup ∧ (Config.init env).saveKeys.Nodup := by
  unfold Config.init
  cases env.minecraftRoot with
  | none => simp [Config.chestKeys, Config.saveKeys, dictKeys]
  | some root =>
    by_cases hroot : root = ""
    · simp [hroot, Config.chestKeys, Config.saveKeys, dictKeys]
    · cases hf : env.fromCfg (env.enderChestConfig (env.expand root)) with
      | error e =>
        simp [hroot, Config.register_enderchest, hf, Config.chestKeys,
          Config.saveKeys, dictKeys]
      | ok chest =>
        simp [hroot, Config.register_enderchest, hf, Config.chestKeys,
          Config.saveKeys, dictKeys, dictInsert]

/-- Claim C4 counterexample: chest entries are NOT keyed by the resolved
(user-expanded) path.  Under `envC4` (where `~/mc` expands to
`/home/user/mc`) registering the two spellings `~/mc` and `/home/user/mc`
of the same canonical path yields TWO chest entries, not one. -/
theorem c4_canonical_counterexample :
    envC4.expand "~/mc" = envC4.expand "/home/user/mc" ∧
    twoSpellings.chestKeys = ["~/mc", "/home/user/mc"] ∧
    twoSpellings.chestKeys.length = 2 := by
  exact ⟨by decide, by decide, by decide⟩

/-- Claim C4 (amended): the store never holds two entries for the same
STORED KEY, where a chest entry is keyed by the registered path exactly as
given (unexpanded — so distinct spellings of one canonical path may
coexist) and a save entry is keyed by the resolver's canonical root.
Formally: a fresh store has duplicate-free key lists, every successful
registration preserves that, each successful chest registration leaves
exactly one entry under the given path, and each successful save
registration exactly one entry under the resolved root. -/
theorem c4_keying_amended (env : Env) (c : Config)
    (hn : c.chestKeys.Nodup) (hs : c.saveKeys.Nodup) :
    ((Config.init env).chestKeys.Nodup ∧ (Config.init env).saveKeys.Nodup) ∧
    (∀ p c', c.register_enderchest env p = .ok c' →
      c'.chestKeys.Nodup ∧ c'.saveKeys.Nodup ∧ c'.chestKeys.count p = 1) ∧
    (∀ p c', c.register_save env p = .ok c' →
      c'.chestKeys.Nodup ∧ c'.saveKeys.Nodup ∧
        ∃ m : GSB_Manifest, env.gsbOf (parentPath (env.expand p)) = .ok m ∧
          c'.saveKeys.count m.root = 1) := by
  refine ⟨init_nodup env, ?_, ?_⟩
  · intro p c' h
    obtain ⟨chest, _, rfl⟩ := register_enderchest_ok_inv h
    exact ⟨nodup_dictKeys_dictInsert p chest _ hn, hs,
      count_dictKeys_dictInsert p chest _ hn⟩
  · intro p c' h
    obtain ⟨m, hm, rfl⟩ := register_save_ok_inv h
    exact ⟨hn, nodup_dictKeys_dictInsert m.root m _ hs,
      m, hm, count_dictKeys_dictInsert m.root m _ hs⟩

/-- Claim C4 witness: the amended keying discipline at the concrete store
`twoSpellings` (which has duplicate-free keys even though two of its entries
share one canonical path). -/
theorem c4_witness :
    twoSpellings.chestKeys.Nodup ∧ twoSpellings.saveKeys.Nodup ∧
    envC4.fromCfg (envC4.enderChestConfig (envC4.expand "/b")) = .ok ⟨"/b"⟩ ∧
    (∀ c', twoSpellings.register_enderchest envC4 "/b" = .ok c' →
      c'.chestKeys.Nodup ∧ c'.saveKeys.Nodup ∧ c'.chestKeys.count "/b" = 1) :=
  ⟨by decide, by decide, by decide,
    fun c' h =>
      (c4_keying_amended envC4 twoSpellings (by decide) (by decide)).2.1 "/b" c' h⟩

/-- Claim C1 (amended): with `$MINECRAFT_ROOT` unset and every replayed
registration succeeding, re-loading `write`'s output reproduces exactly the
original set of chest paths (chest keys are serialized verbatim and re-used
as keys verbatim).  Save entries, however, do NOT re-register to the same
canonical root in general: each serialized root `r` is fed back through
`register_save`, which resolves `Manifest.of` on the PARENT directory of
`r`, so the reloaded save-key set is the image of the original roots under
`root ∘ Manifest.of ∘ parent ∘ expanduser` — which need not (and for gsb's
actual resolver does not) contain `r` itself. -/
theorem c1_roundtrip_amended (env : Env) (c : Config)
    (henv : env.minecraftRoot = none)
    (hchests : ∀ p ∈ c.chestKeys, ∃ chest,
      env.fromCfg (env.enderChestConfig (env.expand p)) = .ok chest)
    (hsaves : ∀ p ∈ c.saveKeys, ∃ m : GSB_Manifest,
      env.gsbOf (parentPath (env.expand p)) = .ok m) :
    ∃ c' : Config,
      Config.from_config env (.ok (c.writeDoc env)) = .ok c' ∧
      (∀ x, x ∈ c'.chestKeys ↔ x ∈ c.chestKeys) ∧
      (∀ x, x ∈ c'.saveKeys ↔ ∃ p ∈ c.saveKeys, ∃ m : GSB_Manifest,
        env.gsbOf (parentPath (env.expand p)) = .ok m ∧ m.root = x) := by
  have hc : lookupToml (c.writeDoc env) "ender_chests" =
      some (.arr (sortedSet (c._ender_chests.map Prod.fst))) := rfl
  have hs : lookupToml (c.writeDoc env) "saves" =
      some (.arr (sortedSet (c._saves.map Prod.fst))) := rfl
  rw [from_config_ok env _ _ _ hc hs, init_of_none henv]
  have hchests' : ∀ q ∈ sortedSet (c._ender_chests.map Prod.fst), ∃ chest,
      env.fromCfg (env.enderChestConfig (env.expand q)) = .ok chest := by
    intro q hq
    exact hchests q ((mem_sortedSet q _).mp hq)
  have hsaves' : ∀ q ∈ sortedSet (c._saves.map Prod.fst), ∃ m : GSB_Manifest,
      env.gsbOf (parentPath (env.expand q)) = .ok m := by
    intro q hq
    exact hsaves q ((mem_sortedSet q _).mp hq)
  refine ⟨_, rfl, ?_, ?_⟩
  · intro x
    have e1 : ((iterToml (.arr (sortedSet (c._saves.map Prod.fst)))).foldl
          (tryRegisterSave env)
          ((iterToml (.arr (sortedSet (c._ender_chests.map Prod.fst)))).foldl
            (tryRegisterChest env) ⟨[], []⟩))._ender_chests =
        ((sortedSet (c._ender_chests.map Prod.fst)).foldl
          (tryRegisterChest env) ⟨[], []⟩)._ender_chests :=
      foldl_tryRegisterSave_chests env _ _
    show x ∈ dictKeys ((iterToml (.arr (sortedSet (c._saves.map Prod.fst)))).foldl
        (tryRegisterSave env) _)._ender_chests ↔ _
    rw [e1]
    have := chestKeys_foldl_mem env _ hchests' ⟨[], []⟩ x
    rw [show ((sortedSet (c._ender_chests.map Prod.fst)).foldl
        (tryRegisterChest env) (⟨[], []⟩ : Config)).chestKeys =
      dictKeys ((sortedSet (c._ender_chests.map Prod.fst)).foldl
        (tryRegisterChest env) (⟨[], []⟩ : Config))._ender_chests from rfl] at this
    rw [this, mem_sortedSet]
    simp [Config.chestKeys, dictKeys]
  · intro x
    show x ∈ ((sortedSet (c._saves.map Prod.fst)).foldl (tryRegisterSave env)
        ((sortedSet (c._ender_chests.map Prod.fst)).foldl (tryRegisterChest env)
          (⟨[], []⟩ : Config))).saveKeys ↔ _
    rw [saveKeys_foldl_mem env (sortedSet (c._saves.map Prod.fst)) hsaves'
      ((sortedSet (c._ender_chests.map Prod.fst)).foldl (tryRegisterChest env)
        ⟨[], []⟩) x]
    have e2 : ((sortedSet (c._ender_chests.map Prod.fst)).foldl
        (tryRegisterChest env) (⟨[], []⟩ : Config))._saves =
        ([] : List (String × GSB_Manifest)) :=
      foldl_tryRegisterChest_saves env _ _
    constructor
    · rintro (hx | ⟨q, hq, m, hm, rfl⟩)
      · rw [show ((sortedSet (c._ender_chests.map Prod.fst)).foldl
            (tryRegisterChest env) (⟨[], []⟩ : Config)).saveKeys =
          dictKeys ((sortedSet (c._ender_chests.map Prod.fst)).foldl
            (tryRegisterChest env) (⟨[], []⟩ : Config))._saves from rfl, e2] at hx
        simp [dictKeys] at hx
      · exact ⟨q, (mem_sortedSet q _).mp hq, m, hm, rfl⟩
    · rintro ⟨p, hp, m, hm, rfl⟩
      exact Or.inr ⟨p, (mem_sortedSet p _).mpr hp, m, hm, rfl⟩

/-- Claim C1 counterexample: under `envW` (whose save resolver, like gsb's,
roots `Manifest.of(d)` at `d`), the store holding the save root
`/saves/world` — obtained by registering `/saves/world/.gsb_manifest` —
serializes that root, and re-loading the serialized document succeeds but
stores the save under `/saves` (the root resolved from the parent of the
serialized value): the reloaded save-key set differs from the original, so
the round trip does not reproduce an equivalent save set, and the save
entry does not re-register to the same canonical root. -/
theorem c1_roundtrip_counterexample :
    saveStore.saveKeys = ["/saves/world"] ∧
    envW.gsbOf (parentPath (envW.expand "/saves/world")) = .ok ⟨"/saves"⟩ ∧
    Config.from_config envW (.ok (saveStore.writeDoc envW)) =
      .ok ⟨[], [("/saves", ⟨"/saves"⟩)]⟩ ∧
    (⟨[], [("/saves", ⟨"/saves"⟩)]⟩ : Config).saveKeys ≠ saveStore.saveKeys := by
  exact ⟨by decide, by decide, by decide, by decide⟩

/-- Claim C1 (amended) witness: the amended round trip at the concrete store
`saveStore` under `envW` — chest keys (there are none) are reproduced, and
the reloaded save keys are exactly the parent-resolved roots. -/
theorem c1_amended_witness :
    envW.minecraftRoot = none ∧
    (∃ c' : Config,
      Config.from_config envW (.ok (saveStore.writeDoc envW)) = .ok c' ∧
      (∀ x, x ∈ c'.chestKeys ↔ x ∈ saveStore.chestKeys) ∧
      (∀ x, x ∈ c'.saveKeys ↔ ∃ p ∈ saveStore.saveKeys, ∃ m : GSB_Manifest,
        envW.gsbOf (parentPath (envW.expand p)) = .ok m ∧ m.root = x)) :=
  ⟨rfl,
    c1_roundtrip_amended envW saveStore rfl
      (fun p hp => by
        rw [show saveStore.chestKeys = ([] : List String) from by decide] at hp
        exact absurd hp (List.not_mem_nil p))
      (fun p _ => ⟨⟨parentPath (envW.expand p)⟩, rfl⟩)⟩

/-- Claim C8 (confirmed): for every string value containing a quote, a
backslash, or any control character (and in fact for every string), the
`json.dumps` escaping used by `_to_toml` round-trips: a standard JSON-style
string unescaper applied to the emitted quoted form reproduces the original
string exactly. -/
theorem c8_escape_roundtrip (s : String)
    (hspecial : ∃ ch ∈ s.data, ch = '"' ∨ ch = '\\' ∨ ch.toNat < 0x20) :
    jsonUnescape (jsonDumps s) = some s :=
  jsonUnescape_jsonDumps s

/-- Claim C8 witness: the round trip at a concrete string holding a quote, a
backslash and a newline. -/
theorem c8_witness :
    (∃ ch ∈ ("a\"b\\c\n".data), ch = '"' ∨ ch = '\\' ∨ ch.toNat < 0x20) ∧
    jsonUnescape (jsonDumps "a\"b\\c\n") = some "a\"b\\c\n" :=
  ⟨by decide, c8_escape_roundtrip "a\"b\\c\n" (by decide)⟩
